import Mathlib

/-
Verification of the Georegulation batch scripts.

The definitions below are a shallow embedding of the two scripts the claims
concern:

* src/general/convertS57.py - extraction of S-57 (ENC) vector features into
  per-chart shapefiles and one composite shapefile per
  (feature type, geometry type) combination, with schema normalisation
  (list-typed fields retyped to string), metadata enrichment from the DSID
  layer, and summary reporting.

* src/general/imageSearchAndSpatialCatalogue.py - the content-hash helper
  used while cataloguing imagery.

External libraries (GDAL/OGR, hashlib, the file system) are modelled at their
narrow interfaces: an OGR layer is a list of features, a schema is a list of
field descriptors, GetFieldIndex is a first-index-by-name lookup, a raised
Python exception is an `Except.error`, and SHA-256 itself is an opaque
function supplied as a parameter.  Python runs under Python 3 semantics
(the repository is Python 3: convertS57.py uses f-strings), which matters in
one place: `hashlib.update` rejects `str` arguments.
-/

namespace Georegulation

/-- A Python scalar value as returned by OGR field access: None, int or str. -/
inductive PyVal where
  | null : PyVal
  | int (n : Int) : PyVal
  | str (s : String) : PyVal
deriving DecidableEq

/-- Python `str(v)` for the values that occur inside list-typed fields
(integers of an IntegerList, strings of a StringList). -/
def PyVal.toStr : PyVal → String
  | .null => "None"
  | .int n => toString n
  | .str s => s

/-- Python `","` `.join` over a list of strings (stdlib behaviour). -/
def commaJoin : List String → String
  | [] => ""
  | [x] => x
  | x :: xs => x ++ "," ++ commaJoin xs

/-- The list-typed branch of the per-field value transfer in convertS57.py
lines 564-582: when the declared field type contains "List", a non-null
source value is written as the comma-joined string
`",".join([str(i) for i in value])`, and a null (Python None) source value is
written through unchanged (`mem_feat.SetField(fieldName, value)` with
`value = None`). -/
def stageListField : Option (List PyVal) → Option String
  | none => none
  | some xs => some (commaJoin (xs.map PyVal.toStr))

/-- An S-57 dataset-identification (DSID) feature: the fields OGR reports for
it, as (field name, field value) pairs in schema order. -/
abbrev DSIDFeature : Type := List (String × PyVal)

/-- The metadata record built by getENCMetadata (convertS57.py lines 43-87):
ENC name, issue date, scale and comment. -/
structure ENCMeta where
  name : PyVal
  issueDate : PyVal
  scale : PyVal
  comment : PyVal
deriving DecidableEq

/-- getENCMetadata, convertS57.py lines 43-87.  The DSID layer is
`data.GetLayerByName('DSID')`, which is None when the chart has no DSID
layer; the function then executes `for feature in layer:` on None, which
raises TypeError (modelled as `Except.error`).  Otherwise the defaults
scale = 0, dsnm = comment = issueDate = empty string are overwritten by the
value of any field named DSPM_CSCL / DSID_DSNM / DSID_COMT / DSID_ISDT,
scanning every feature and every field in order (last assignment wins). -/
def getENCMetadata (dsidLayer : Option (List DSIDFeature)) : Except String ENCMeta :=
  match dsidLayer with
  | none => .error "TypeError: NoneType object is not iterable"
  | some feats =>
    .ok (feats.foldl (fun m feat =>
      feat.foldl (fun m fld =>
        if fld.1 = "DSPM_CSCL" then { m with scale := fld.2 }
        else if fld.1 = "DSID_DSNM" then { m with name := fld.2 }
        else if fld.1 = "DSID_COMT" then { m with comment := fld.2 }
        else if fld.1 = "DSID_ISDT" then { m with issueDate := fld.2 }
        else m) m)
      ⟨.str "", .str "", .int 0, .str ""⟩)

/-- The byte string read from a file, each byte a Nat. -/
def Bytes : Type := List Nat

/-- A Python value passed to `hashlib` `update`: Python 3 distinguishes str
from bytes and `update` raises TypeError on a str. -/
inductive StrOrBytes where
  | str (s : String) : StrOrBytes
  | bytes (b : Bytes) : StrOrBytes

/-- `digest.update(x)` under Python 3: appends the chunk when it is bytes,
raises TypeError when it is a str. -/
def digestUpdate (acc : Bytes) : StrOrBytes → Except String Bytes
  | .str _ => .error "TypeError: Unicode-objects must be encoded before hashing"
  | .bytes b => .ok (List.append acc b)

/-- The external collaborators of the hash function in
imageSearchAndSpatialCatalogue.py: SHA-256 hex digest of a byte string
(opaque), `open(p).read()` (None when opening or reading raises), and
`os.walk` flattened to the list of files under a folder. -/
structure HashEnv where
  sha256hex : Bytes → String
  readFile : String → Option Bytes
  walkFiles : String → List String

/-- The accumulation loop of the gdb branch (lines 136-141): for every file
under the walked folder, read it, take the SHA-256 hex digest (a str), and
pass that str to `digest.update` - which raises under Python 3.  A failed
read also raises.  Any raised exception propagates to the enclosing
try/except. -/
def gdbAccum (env : HashEnv) (files : List String) : Except String Bytes :=
  files.foldlM (fun acc f =>
    match env.readFile f with
    | none => .error "IOError"
    | some bs => digestUpdate acc (.str (env.sha256hex bs))) []

/-- Removing a leading occurrence of `sep` from a character list: the rest of
the list when `sep` is a leading segment, none otherwise. -/
def dropSep : List Char → List Char → Option (List Char)
  | [], l => some l
  | _ :: _, [] => none
  | c :: cs, d :: ds => if c = d then dropSep cs ds else none

/-- Python `sep in s` (substring containment) over character lists. -/
def hasSub (sep : List Char) : List Char → Bool
  | [] => (dropSep sep []).isSome
  | d :: ds => (dropSep sep (d :: ds)).isSome || hasSub sep ds

/-- Python `s.split(sep)[0]`: the segment before the first occurrence of
`sep`, or the whole list when `sep` does not occur. -/
def beforeSub (sep : List Char) : List Char → List Char
  | [] => []
  | d :: ds => if (dropSep sep (d :: ds)).isSome then [] else d :: beforeSub sep ds

/-- The `hash` function of imageSearchAndSpatialCatalogue.py lines 117-154.
`'gdb' in path` is the substring test, and `path.split('gdb')[0] + 'gdb'` is
the segment before the first "gdb" with "gdb" appended.  Each branch catches
every exception and returns the literal failure string. -/
def hashFn (env : HashEnv) (path : String) : String :=
  if hasSub "gdb".data path.data then
    match gdbAccum env (env.walkFiles (String.mk (beforeSub "gdb".data path.data) ++ "gdb")) with
    | .ok acc => env.sha256hex acc
    | .error _ => "sha256 hash failed"
  else
    match env.readFile path with
    | some bs => env.sha256hex bs
    | none => "sha256 hash failed"

/-- A concrete environment witnessing the gdb-branch behaviour: the walked
geodatabase folder holds exactly one file and reading it succeeds. -/
def gdbEnv : HashEnv where
  sha256hex := fun bs => "digest" ++ toString bs.length
  readFile := fun p => if p = "survey.gdb/a00000001.gdbtable" then some [1, 2, 3] else none
  walkFiles := fun _ => ["survey.gdb/a00000001.gdbtable"]

/-- C2: a null list-valued source field is staged as null (not as the empty
string), and a non-null list value [a, b, c] is staged as the comma-joined
string "a,b,c". -/
theorem listValue_serialization :
    stageListField none = none ∧
    ∀ a b c : PyVal, stageListField (some [a, b, c]) =
      some (a.toStr ++ "," ++ (b.toStr ++ "," ++ c.toStr)) := by
  refine ⟨rfl, fun a b c => ?_⟩
  simp [stageListField, commaJoin, String.append_assoc]

/-- C4 counterexample: on a chart whose DSID layer is missing,
getENCMetadata iterates over None and raises TypeError, so processing of the
chart aborts instead of continuing with default values. -/
theorem dsid_missing_aborts :
    getENCMetadata none = .error "TypeError: NoneType object is not iterable" := rfl

/-- C4 amended: when the DSID layer is present but none of its fields is
named DSPM_CSCL, DSID_DSNM, DSID_COMT or DSID_ISDT, the enrichment values
are the defaults (empty strings and scale 0) and no exception is raised. -/
theorem dsid_fields_missing_defaults (feats : List DSIDFeature)
    (h : ∀ feat ∈ feats, ∀ p ∈ feat,
      p.1 ≠ "DSPM_CSCL" ∧ p.1 ≠ "DSID_DSNM" ∧ p.1 ≠ "DSID_COMT" ∧ p.1 ≠ "DSID_ISDT") :
    getENCMetadata (some feats) = .ok ⟨.str "", .str "", .int 0, .str ""⟩ := by
  unfold getENCMetadata
  induction feats with
  | nil => rfl
  | cons feat rest ih =>
    have hfeat := h feat (List.mem_cons_self _ _)
    have hstep : feat.foldl (fun m fld =>
        if fld.1 = "DSPM_CSCL" then { m with scale := fld.2 }
        else if fld.1 = "DSID_DSNM" then { m with name := fld.2 }
        else if fld.1 = "DSID_COMT" then { m with comment := fld.2 }
        else if fld.1 = "DSID_ISDT" then { m with issueDate := fld.2 }
        else m) (⟨.str "", .str "", .int 0, .str ""⟩ : ENCMeta) =
        ⟨.str "", .str "", .int 0, .str ""⟩ := by
      have : ∀ (l : List (String × PyVal)) (m : ENCMeta),
          (∀ p ∈ l, p.1 ≠ "DSPM_CSCL" ∧ p.1 ≠ "DSID_DSNM" ∧ p.1 ≠ "DSID_COMT" ∧ p.1 ≠ "DSID_ISDT") →
          l.foldl (fun m fld =>
            if fld.1 = "DSPM_CSCL" then { m with scale := fld.2 }
            else if fld.1 = "DSID_DSNM" then { m with name := fld.2 }
            else if fld.1 = "DSID_COMT" then { m with comment := fld.2 }
            else if fld.1 = "DSID_ISDT" then { m with issueDate := fld.2 }
            else m) m = m := by
        intro l
        induction l with
        | nil => intro m _; rfl
        | cons p ps ihp =>
          intro m hm
          have hp := hm p (List.mem_cons_self _ _)
          simp only [List.foldl_cons, if_neg hp.1, if_neg hp.2.1, if_neg hp.2.2.1,
            if_neg hp.2.2.2]
          exact ihp m (fun q hq => hm q (List.mem_cons_of_mem _ hq))
      exact this feat _ hfeat
    simp only [List.foldl_cons, hstep]
    exact ih (fun f hf => h f (List.mem_cons_of_mem _ hf))

/-- C4 amended, witness: a DSID layer with a single feature holding only an
unrelated field yields exactly the default metadata record. -/
theorem dsid_fields_missing_defaults_witness :
    getENCMetadata (some [[("DSID_EDTN", PyVal.int 1)]]) =
      .ok ⟨.str "", .str "", .int 0, .str ""⟩ :=
  dsid_fields_missing_defaults [[("DSID_EDTN", PyVal.int 1)]] (by decide)

/-- C10: on a path containing "gdb" whose geodatabase folder holds a
readable file, the hash function returns the literal failure string - the
per-file accumulation `digest.update(hexdigest)` passes a str to hashlib,
which raises TypeError under Python 3 and is swallowed by the bare except -
even though every read succeeds, so a non-empty geodatabase never receives
an accumulated digest. -/
theorem gdb_hash_always_fails :
    hashFn gdbEnv "survey.gdb/featureclass" = "sha256 hash failed" ∧
    gdbEnv.readFile "survey.gdb/a00000001.gdbtable" = some [1, 2, 3] ∧
    gdbEnv.walkFiles "survey.gdb" ≠ [] := by
  refine ⟨rfl, rfl, by decide⟩

/-- A field type as reported by OGR field-type names, including the two list
types that shapefiles do not support. -/
inductive FType where
  | integer : FType
  | real : FType
  | string : FType
  | date : FType
  | integerList : FType
  | stringList : FType
deriving DecidableEq

/-- An OGR field definition: name, declared type, width, precision. -/
structure SField where
  name : String
  ftype : FType
  width : Nat
  precision : Nat
deriving DecidableEq

/-- The membership test of convertS57.py line 410: the field-type name is in
["StringList", "IntegerList"]. -/
def isListType : FType → Bool
  | .integerList => true
  | .stringList => true
  | _ => false

/-- `ogr.FieldDefn(name, ogr.OFTString)`: a fresh string-typed field
definition with default width 0 and precision 0. -/
def stringFieldDefn (n : String) : SField := ⟨n, .string, 0, 0⟩

/-- `GetLayerDefn().GetFieldIndex(name)`: the first index of a field with the
given name; `none` stands for the -1 the binding returns when absent. -/
def getFieldIndex : List SField → String → Option Nat
  | [], _ => none
  | f :: rest, n => if f.name = n then some 0 else (getFieldIndex rest n).map (· + 1)

/-- One iteration of the list-retype loop of convertS57.py lines 407-413: if
the snapshot field has a list type, AlterFieldDefn re-declares the field as
string at the index the live layer reports for its name. -/
def retypeStep (acc : List SField) (f : SField) : List SField :=
  if isListType f.ftype then
    match getFieldIndex acc f.name with
    | some i => acc.set i (stringFieldDefn f.name)
    | none => acc
  else acc

/-- The list-retype loop of convertS57.py lines 407-413: iterate over the
schema snapshot taken at loop entry while altering the live layer (which
starts out equal to the snapshot). -/
def retypeListPass (s : List SField) : List SField := s.foldl retypeStep s

/-- The STATUS pass of convertS57.py lines 425-435: when a field named STATUS
exists, its definition is re-declared as string; otherwise nothing happens. -/
def statusPass (s : List SField) : List SField :=
  match getFieldIndex s "STATUS" with
  | some i => s.set i (stringFieldDefn "STATUS")
  | none => s

/-- The four enrichment fields appended by convertS57.py lines 437-452:
three string fields and one integer field. -/
def enrichFieldDefns : List SField :=
  [stringFieldDefn "ENCSource", stringFieldDefn "ENCissDate", stringFieldDefn "ENCComment",
    ⟨"ENCScale", .integer, 0, 0⟩]

/-- The staging-schema construction for one chart (convertS57.py lines
387-452, safemode disabled): copy the source schema into the memory layer,
retype list-typed fields to string, retype STATUS to string, then append the
four enrichment fields.  All of this happens before the first feature row is
transferred (lines 485-611). -/
def normalizeSchema (s : List SField) : List SField :=
  statusPass (retypeListPass s) ++ enrichFieldDefns

theorem lt_length_of_getq {α : Type} (l : List α) (i : Nat) (a : α)
    (h : l[i]? = some a) : i < l.length := by
  by_contra hlt
  push_neg at hlt
  rw [List.getElem?_eq_none hlt] at h
  cases h

theorem setSame {α : Type} (l : List α) (i : Nat) (v : α) (h : l[i]? = some v) :
    l.set i v = l := by
  induction l generalizing i with
  | nil => cases h
  | cons a t ih =>
    cases i with
    | zero =>
      simp only [List.getElem?_cons_zero, Option.some.injEq] at h
      simp [List.set, h]
    | succ n =>
      simp only [List.getElem?_cons_succ] at h
      simp [List.set, ih n h]

theorem getFieldIndex_spec (s : List SField) (n : String) (i : Nat)
    (h : getFieldIndex s n = some i) : ∃ g, s[i]? = some g ∧ g.name = n := by
  induction s generalizing i with
  | nil => cases h
  | cons f rest ih =>
    by_cases hf : f.name = n
    · simp only [getFieldIndex, if_pos hf, Option.some.injEq] at h
      exact ⟨f, by rw [← h]; simp, hf⟩
    · simp only [getFieldIndex, if_neg hf] at h
      rcases Option.map_eq_some'.mp h with ⟨j, hj, hij⟩
      rcases ih j hj with ⟨g, hg, hgname⟩
      exact ⟨g, by rw [← hij]; simpa using hg, hgname⟩

theorem getFieldIndex_none (s : List SField) (n : String)
    (h : getFieldIndex s n = none) : ∀ g ∈ s, g.name ≠ n := by
  induction s with
  | nil => intro g hg; cases hg
  | cons f rest ih =>
    by_cases hf : f.name = n
    · simp [getFieldIndex, if_pos hf] at h
    · simp only [getFieldIndex, if_neg hf] at h
      intro g hg
      rcases List.mem_cons.mp hg with h1 | h2
      · rw [h1]; exact hf
      · exact ih (Option.map_eq_none.mp h) g h2

theorem nodup_index_inj {α : Type} (l : List α) (hnd : l.Nodup) (i j : Nat) (a : α)
    (h1 : l[i]? = some a) (h2 : l[j]? = some a) : i = j := by
  induction l generalizing i j with
  | nil => cases h1
  | cons x t ih =>
    rcases List.nodup_cons.mp hnd with ⟨hx, ht⟩
    cases i with
    | zero =>
      cases j with
      | zero => rfl
      | succ m =>
        simp only [List.getElem?_cons_zero, Option.some.injEq] at h1
        simp only [List.getElem?_cons_succ] at h2
        rw [h1] at hx
        exact absurd (List.getElem?_mem h2) hx
    | succ m =>
      cases j with
      | zero =>
        simp only [List.getElem?_cons_zero, Option.some.injEq] at h2
        simp only [List.getElem?_cons_succ] at h1
        rw [h2] at hx
        exact absurd (List.getElem?_mem h1) hx
      | succ m2 =>
        simp only [List.getElem?_cons_succ] at h1 h2
        exact congrArg Nat.succ (ih ht m m2 h1 h2)

theorem retypeStep_names (acc : List SField) (f : SField) :
    (retypeStep acc f).map SField.name = acc.map SField.name := by
  unfold retypeStep
  by_cases hl : isListType f.ftype
  · simp only [if_pos hl]
    cases hidx : getFieldIndex acc f.name with
    | none => rfl
    | some i =>
      rcases getFieldIndex_spec acc f.name i hidx with ⟨g, hg, hname⟩
      rw [List.map_set]
      apply setSame
      rw [List.getElem?_map, hg]
      simp [stringFieldDefn, hname]
  · simp [if_neg hl]

theorem retypeStep_get (acc : List SField) (f : SField)
    (hnd : (acc.map SField.name).Nodup) (j : Nat) (g : SField) (hg : acc[j]? = some g) :
    (retypeStep acc f)[j]? =
      some (if isListType f.ftype && f.name == g.name then stringFieldDefn g.name else g) := by
  unfold retypeStep
  by_cases hl : isListType f.ftype
  · simp only [if_pos hl]
    cases hidx : getFieldIndex acc f.name with
    | none =>
      have hne : f.name ≠ g.name :=
        fun he => getFieldIndex_none acc f.name hidx g (List.getElem?_mem hg) he.symm
      simp [hl, beq_false_of_ne hne, hg]
    | some i =>
      rcases getFieldIndex_spec acc f.name i hidx with ⟨gi, hgi, hginame⟩
      by_cases hname : f.name = g.name
      · have hji : i = j := by
          apply nodup_index_inj (acc.map SField.name) hnd i j g.name
          · rw [List.getElem?_map, hgi]
            simp [hginame, hname]
          · rw [List.getElem?_map, hg]
            simp
        rw [hji] at hgi ⊢
        rw [List.getElem?_set_self (lt_length_of_getq acc j g hg)]
        simp [hl, hname]
      · have hij : i ≠ j := by
          intro he
          rw [he, hg] at hgi
          have hge : g = gi := Option.some.inj hgi
          rw [← hge] at hginame
          exact hname hginame.symm
        rw [List.getElem?_set_ne hij, hg]
        simp [hl, beq_false_of_ne hname]
  · simp [if_neg hl, hl, hg]

theorem retypeFold_get (t : List SField) :
    ∀ acc : List SField, (acc.map SField.name).Nodup → ∀ (j : Nat) (g : SField),
      acc[j]? = some g →
      (t.foldl retypeStep acc)[j]? =
        some (if t.any (fun f => isListType f.ftype && f.name == g.name)
              then stringFieldDefn g.name else g) := by
  induction t with
  | nil =>
    intro acc _ j g hg
    simpa using hg
  | cons f t ih =>
    intro acc hnd j g hg
    rw [List.foldl_cons]
    have hnd2 : ((retypeStep acc f).map SField.name).Nodup := by
      rw [retypeStep_names]; exact hnd
    have hstep := retypeStep_get acc f hnd j g hg
    by_cases hc : (isListType f.ftype && f.name == g.name) = true
    · rw [hc] at hstep
      simp only [if_pos] at hstep
      have := ih (retypeStep acc f) hnd2 j (stringFieldDefn g.name) hstep
      rw [this]
      simp [List.any_cons, hc, stringFieldDefn]
    · rw [Bool.not_eq_true] at hc
      rw [hc] at hstep
      simp only [Bool.false_eq_true, if_false] at hstep
      have := ih (retypeStep acc f) hnd2 j g hstep
      rw [this]
      simp [List.any_cons, hc]

theorem retypeFold_names (t : List SField) :
    ∀ acc : List SField, (t.foldl retypeStep acc).map SField.name = acc.map SField.name := by
  induction t with
  | nil => intro acc; rfl
  | cons f t ih =>
    intro acc
    rw [List.foldl_cons, ih, retypeStep_names]

theorem statusPass_get (l : List SField) (j : Nat) (g : SField) (hg : l[j]? = some g) :
    ∃ g2, (statusPass l)[j]? = some g2 ∧ g2.name = g.name ∧
      (g2 = g ∨ g2 = stringFieldDefn g.name) := by
  unfold statusPass
  cases hidx : getFieldIndex l "STATUS" with
  | none => exact ⟨g, hg, rfl, Or.inl rfl⟩
  | some i =>
    rcases getFieldIndex_spec l "STATUS" i hidx with ⟨gi, hgi, hginame⟩
    by_cases hij : i = j
    · rw [hij] at hgi
      rw [hg] at hgi
      have hgig : g = gi := Option.some.inj hgi
      have hgname : g.name = "STATUS" := by rw [hgig]; exact hginame
      refine ⟨stringFieldDefn "STATUS", ?_, ?_, Or.inr ?_⟩
      · rw [hij]
        exact List.getElem?_set_self (lt_length_of_getq l j g hg)
      · rw [hgname]
        rfl
      · rw [hgname]
    · exact ⟨g, by rw [List.getElem?_set_ne hij]; exact hg, rfl, Or.inl rfl⟩

/-- C1: for a source schema with distinct field names, every list-typed field
appears in the staging schema at the same position, under the same name,
with string type; the normalisation (convertS57.py lines 387-452) runs
before any feature row is transferred (lines 485-611), which the pipeline
definition `normalizeSchema` reflects by construction. -/
theorem listFields_retyped_in_staging (s : List SField)
    (hnd : (s.map SField.name).Nodup) (j : Nat) (g : SField)
    (hg : s[j]? = some g) (hl : isListType g.ftype = true) :
    ∃ g2, (normalizeSchema s)[j]? = some g2 ∧ g2.name = g.name ∧ g2.ftype = FType.string := by
  have h1 : (retypeListPass s)[j]? = some (stringFieldDefn g.name) := by
    have hfold := retypeFold_get s s hnd j g hg
    have hany : s.any (fun f => isListType f.ftype && f.name == g.name) = true :=
      List.any_eq_true.mpr ⟨g, List.getElem?_mem hg, by simp [hl]⟩
    rw [retypeListPass, hfold, hany]
    simp
  rcases statusPass_get (retypeListPass s) j (stringFieldDefn g.name) h1 with
    ⟨g2, hg2, hname2, hcase⟩
  refine ⟨g2, ?_, ?_, ?_⟩
  · rw [normalizeSchema]
    rw [List.getElem?_append_left (lt_length_of_getq _ j g2 hg2)]
    exact hg2
  · exact hname2
  · rcases hcase with h | h <;> rw [h] <;> rfl

/-- C1 witness schema: one list-typed field and one plain string field. -/
def c1Schema : List SField :=
  [⟨"NATSUR", FType.stringList, 0, 0⟩, ⟨"OBJNAM", FType.string, 80, 0⟩]

/-- C1 witness: on the concrete schema, the list-typed NATSUR field is
string-typed in the staging schema. -/
theorem listFields_retyped_in_staging_witness :
    ((c1Schema.map SField.name).Nodup ∧
      c1Schema[0]? = some ⟨"NATSUR", FType.stringList, 0, 0⟩) ∧
    ∃ g2, (normalizeSchema c1Schema)[0]? = some g2 ∧
      g2.name = "NATSUR" ∧ g2.ftype = FType.string :=
  ⟨⟨by decide, rfl⟩,
    listFields_retyped_in_staging c1Schema (by decide) 0
      ⟨"NATSUR", FType.stringList, 0, 0⟩ rfl rfl⟩

theorem retypeFold_id (t : List SField) (h : ∀ f ∈ t, isListType f.ftype = false) :
    ∀ acc : List SField, t.foldl retypeStep acc = acc := by
  induction t with
  | nil => intro acc; rfl
  | cons f t ih =>
    intro acc
    rw [List.foldl_cons]
    have hstep : retypeStep acc f = acc := by
      unfold retypeStep
      rw [h f (List.mem_cons_self f t)]
      simp
    rw [hstep]
    exact ih (fun x hx => h x (List.mem_cons_of_mem f hx)) acc

theorem mem_statusPass (l : List SField) (f : SField) (hf : f ∈ statusPass l) :
    f ∈ l ∨ f = stringFieldDefn "STATUS" := by
  unfold statusPass at hf
  cases hidx : getFieldIndex l "STATUS" with
  | none => rw [hidx] at hf; exact Or.inl hf
  | some i =>
    rw [hidx] at hf
    exact List.mem_or_eq_of_mem_set hf

theorem normalize_no_list (s : List SField) (hnd : (s.map SField.name).Nodup) :
    ∀ f ∈ normalizeSchema s, isListType f.ftype = false := by
  intro f hf
  rw [normalizeSchema] at hf
  rcases List.mem_append.mp hf with hf | hf
  · rcases mem_statusPass (retypeListPass s) f hf with hf | hf
    · rcases List.mem_iff_getElem?.mp hf with ⟨j, hj⟩
      have hjlen : j < s.length := by
        have hlen : (retypeListPass s).length = s.length := by
          have h2 := congrArg List.length (retypeFold_names s s)
          simpa [retypeListPass] using h2
        exact hlen ▸ lt_length_of_getq _ j f hj
      have hg : s[j]? = some (s.get ⟨j, hjlen⟩) := List.getElem?_eq_getElem hjlen
      have hfold := retypeFold_get s s hnd j (s.get ⟨j, hjlen⟩) hg
      rw [retypeListPass] at hj
      rw [hfold] at hj
      by_cases hany : s.any (fun x => isListType x.ftype && x.name == (s.get ⟨j, hjlen⟩).name) = true
      · rw [hany] at hj
        simp only [if_pos] at hj
        rw [← Option.some.inj hj]
        rfl
      · rw [Bool.not_eq_true] at hany
        rw [hany] at hj
        simp only [Bool.false_eq_true, if_false] at hj
        rw [← Option.some.inj hj]
        by_contra hlist
        rw [Bool.not_eq_false] at hlist
        have : s.any (fun x => isListType x.ftype && x.name == (s.get ⟨j, hjlen⟩).name) = true :=
          List.any_eq_true.mpr ⟨s.get ⟨j, hjlen⟩, List.getElem?_mem hg, by
            simp only [List.get_eq_getElem] at hlist
            simp [hlist]⟩
        rw [this] at hany
        cases hany
    · rw [hf]; rfl
  · have hcases : f = stringFieldDefn "ENCSource" ∨ f = stringFieldDefn "ENCissDate" ∨
        f = stringFieldDefn "ENCComment" ∨ f = (⟨"ENCScale", .integer, 0, 0⟩ : SField) := by
      simpa [enrichFieldDefns] using hf
    rcases hcases with h | h | h | h <;> (rw [h]; rfl)

theorem gfi_append_of_some (l1 l2 : List SField) (nm : String) (i : Nat)
    (h : getFieldIndex l1 nm = some i) : getFieldIndex (l1 ++ l2) nm = some i := by
  induction l1 generalizing i with
  | nil => cases h
  | cons f rest ih =>
    rw [List.cons_append]
    by_cases hf : f.name = nm
    · simp only [getFieldIndex, if_pos hf, Option.some.injEq] at h ⊢
      exact h
    · simp only [getFieldIndex, if_neg hf] at h ⊢
      rcases Option.map_eq_some'.mp h with ⟨j, hj, hij⟩
      rw [ih j hj]
      simpa using hij

theorem gfi_append_of_none (l1 l2 : List SField) (nm : String)
    (h1 : getFieldIndex l1 nm = none) (h2 : getFieldIndex l2 nm = none) :
    getFieldIndex (l1 ++ l2) nm = none := by
  induction l1 with
  | nil => simpa using h2
  | cons f rest ih =>
    rw [List.cons_append]
    by_cases hf : f.name = nm
    · simp [getFieldIndex, if_pos hf] at h1
    · simp only [getFieldIndex, if_neg hf] at h1 ⊢
      rw [ih (Option.map_eq_none.mp h1)]
      rfl

theorem gfi_append_inv (l1 l2 : List SField) (nm : String) (k : Nat)
    (h2 : getFieldIndex l2 nm = none) (h : getFieldIndex (l1 ++ l2) nm = some k) :
    getFieldIndex l1 nm = some k := by
  cases hl1 : getFieldIndex l1 nm with
  | some i =>
    rw [gfi_append_of_some l1 l2 nm i hl1] at h
    exact h
  | none =>
    rw [gfi_append_of_none l1 l2 nm hl1 h2] at h
    cases h

theorem gfi_set_value (m : List SField) (nm : String) (i : Nat)
    (h : getFieldIndex m nm = some i) :
    getFieldIndex (m.set i (stringFieldDefn nm)) nm = some i := by
  induction m generalizing i with
  | nil => cases h
  | cons f rest ih =>
    by_cases hf : f.name = nm
    · simp only [getFieldIndex, if_pos hf, Option.some.injEq] at h
      rw [← h]
      simp [List.set, getFieldIndex, stringFieldDefn]
    · simp only [getFieldIndex, if_neg hf] at h
      rcases Option.map_eq_some'.mp h with ⟨j, hj, hij⟩
      rw [← hij]
      simp only [List.set, getFieldIndex, if_neg hf]
      rw [ih j hj]
      rfl

theorem statusPass_pins (m : List SField) (k : Nat)
    (h : getFieldIndex (statusPass m) "STATUS" = some k) :
    (statusPass m)[k]? = some (stringFieldDefn "STATUS") := by
  unfold statusPass at h ⊢
  cases hidx : getFieldIndex m "STATUS" with
  | none =>
    simp only [hidx] at h
    exact Option.noConfusion h
  | some i =>
    simp only [hidx] at h ⊢
    have hgfi := gfi_set_value m "STATUS" i hidx
    rw [hgfi] at h
    have hk : k = i := (Option.some.inj h).symm
    rw [hk]
    rcases getFieldIndex_spec m "STATUS" i hidx with ⟨gi, hgi, _⟩
    exact List.getElem?_set_self (lt_length_of_getq m i gi hgi)

/-- C8 counterexample: applying the schema normalisation twice is not the
same as applying it once - already on the empty source schema the four
enrichment fields are appended a second time. -/
theorem normalize_not_idempotent :
    normalizeSchema (normalizeSchema []) ≠ normalizeSchema [] := by decide

/-- C8 amended: for a source schema with distinct field names, the second
application of the normalisation changes nothing except appending the four
enrichment fields once more: the retyping steps themselves are idempotent,
but the unconditional CreateField calls of lines 437-452 duplicate
ENCSource, ENCissDate, ENCComment and ENCScale. -/
theorem normalize_twice_appends_enrichment (s : List SField)
    (hnd : (s.map SField.name).Nodup) :
    normalizeSchema (normalizeSchema s) = normalizeSchema s ++ enrichFieldDefns := by
  have hnolist := normalize_no_list s hnd
  have h1 : retypeListPass (normalizeSchema s) = normalizeSchema s :=
    retypeFold_id (normalizeSchema s) hnolist (normalizeSchema s)
  have h2 : statusPass (normalizeSchema s) = normalizeSchema s := by
    unfold statusPass
    cases hidx : getFieldIndex (normalizeSchema s) "STATUS" with
    | none => rfl
    | some k =>
      apply setSame
      have henr : getFieldIndex enrichFieldDefns "STATUS" = none := by decide
      have hcore : getFieldIndex (statusPass (retypeListPass s)) "STATUS" = some k :=
        gfi_append_inv _ enrichFieldDefns "STATUS" k henr hidx
      have hpin := statusPass_pins (retypeListPass s) k hcore
      rw [normalizeSchema]
      rw [List.getElem?_append_left (lt_length_of_getq _ k _ hpin)]
      exact hpin
  have hout : normalizeSchema (normalizeSchema s) =
      statusPass (retypeListPass (normalizeSchema s)) ++ enrichFieldDefns := rfl
  rw [hout, h1, h2]

/-- C8 amended, witness: on a one-field schema whose single field is an
integer-list named STATUS, normalising twice appends the enrichment fields
a second time. -/
theorem normalize_twice_appends_enrichment_witness :
    (([⟨"STATUS", FType.integerList, 3, 0⟩] : List SField).map SField.name).Nodup ∧
    normalizeSchema (normalizeSchema [⟨"STATUS", FType.integerList, 3, 0⟩]) =
      normalizeSchema [⟨"STATUS", FType.integerList, 3, 0⟩] ++ enrichFieldDefns :=
  ⟨by decide, normalize_twice_appends_enrichment _ (by decide)⟩

/-- The attribute state of the single staging feature object `mem_feat`
(convertS57.py line 485): each staging-layer field name maps to its current
value (none is an OGR null). -/
abbrev MemFeat : Type := String → Option String

/-- `mem_feat.SetField(name, value)`. -/
def setField (m : MemFeat) (n : String) (v : Option String) : MemFeat :=
  fun k => if k = n then v else m k

/-- The names of the four enrichment fields (convertS57.py strFields and
intFields, lines 438 and 447). -/
def enrichNames : List String := ["ENCSource", "ENCissDate", "ENCComment", "ENCScale"]

/-- The per-feature field-copy loop of convertS57.py lines 529-587: for each
source field, skip it when its name is one of the enrichment names (line
533), skip it when the staging layer has no field of that name (lines
555-559, index -1), otherwise SetField with the source value (the list /
non-list branches both end in a SetField of the staged value, which this
model carries as an already-staged `Option String`). -/
def copyFields (stagingNames : List String) (src : List (String × Option String))
    (m : MemFeat) : MemFeat :=
  src.foldl (fun acc p =>
    if p.1 ∈ enrichNames then acc
    else if p.1 ∈ stagingNames then setField acc p.1 p.2
    else acc) m

/-- The enrichment application of convertS57.py lines 596-607: for each
metaDict entry, SetField the stringified metadata value on the staging
feature (the staging layer always holds the four enrichment fields, created
at lines 437-452). -/
def applyEnrichment (meta : List (String × String)) (m : MemFeat) : MemFeat :=
  meta.foldl (fun acc p => setField acc p.1 (some p.2)) m

/-- Staging one source feature onto the (reused) staging feature object:
field copy, then enrichment (convertS57.py lines 507-607). -/
def stageOneFeature (stagingNames : List String) (meta : List (String × String))
    (src : List (String × Option String)) (m : MemFeat) : MemFeat :=
  applyEnrichment meta (copyFields stagingNames src m)

/-- The staging loop of convertS57.py lines 507-612: `mem_feat` is created
once (line 485) and reused for every source feature; after each feature the
current state is snapshotted into the layer by CreateFeature (line 611).
The resulting rows are the successive states of the single object. -/
def stageRows (stagingNames : List String) (meta : List (String × String)) :
    MemFeat → List (List (String × Option String)) → List MemFeat
  | _, [] => []
  | m, f :: rest =>
    stageOneFeature stagingNames meta f m ::
      stageRows stagingNames meta (stageOneFeature stagingNames meta f m) rest

theorem copyFields_not_mem (stagingNames : List String)
    (src : List (String × Option String)) (fn : String)
    (h : fn ∉ src.map Prod.fst) :
    ∀ m : MemFeat, copyFields stagingNames src m fn = m fn := by
  induction src with
  | nil => intro m; rfl
  | cons p rest ih =>
    intro m
    have hne : fn ≠ p.1 := by
      intro he
      exact h (by rw [List.map_cons, he]; exact List.mem_cons_self _ _)
    have hrest : fn ∉ rest.map Prod.fst := by
      intro hr
      exact h (by rw [List.map_cons]; exact List.mem_cons_of_mem _ hr)
    unfold copyFields at ih ⊢
    rw [List.foldl_cons]
    by_cases h1 : p.1 ∈ enrichNames
    · simp only [if_pos h1]
      exact ih hrest m
    · simp only [if_neg h1]
      by_cases h2 : p.1 ∈ stagingNames
      · simp only [if_pos h2]
        rw [ih hrest (setField m p.1 p.2)]
        simp [setField, if_neg hne]
      · simp only [if_neg h2]
        exact ih hrest m

theorem applyEnrichment_not_mem (meta : List (String × String)) (fn : String)
    (h : fn ∉ meta.map Prod.fst) :
    ∀ m : MemFeat, applyEnrichment meta m fn = m fn := by
  induction meta with
  | nil => intro m; rfl
  | cons p rest ih =>
    intro m
    have hne : fn ≠ p.1 := by
      intro he
      exact h (by rw [List.map_cons, he]; exact List.mem_cons_self _ _)
    have hrest : fn ∉ rest.map Prod.fst := by
      intro hr
      exact h (by rw [List.map_cons]; exact List.mem_cons_of_mem _ hr)
    unfold applyEnrichment at ih ⊢
    rw [List.foldl_cons]
    rw [ih hrest (setField m p.1 (some p.2))]
    simp [setField, if_neg hne]

theorem stageOneFeature_not_mem (stagingNames : List String)
    (meta : List (String × String)) (src : List (String × Option String))
    (fn : String) (hsrc : fn ∉ src.map Prod.fst) (hmeta : fn ∉ meta.map Prod.fst)
    (m : MemFeat) : stageOneFeature stagingNames meta src m fn = m fn := by
  rw [stageOneFeature, applyEnrichment_not_mem meta fn hmeta,
    copyFields_not_mem stagingNames src fn hsrc]

theorem stageRows_succ (stagingNames : List String) (meta : List (String × String)) :
    ∀ (feats : List (List (String × Option String))) (m0 : MemFeat) (k : Nat)
      (f2 : List (String × Option String)) (r : MemFeat),
      feats[k + 1]? = some f2 →
      (stageRows stagingNames meta m0 feats)[k]? = some r →
      (stageRows stagingNames meta m0 feats)[k + 1]? =
        some (stageOneFeature stagingNames meta f2 r) := by
  intro feats
  induction feats with
  | nil => intro m0 k f2 r hf _; cases hf
  | cons f rest ih =>
    intro m0 k f2 r hf hr
    cases k with
    | zero =>
      simp only [List.getElem?_cons_succ] at hf
      simp only [stageRows, List.getElem?_cons_zero, Option.some.injEq] at hr
      cases rest with
      | nil => cases hf
      | cons g rest2 =>
        simp only [List.getElem?_cons_zero, Option.some.injEq] at hf
        simp only [stageRows, List.getElem?_cons_succ, List.getElem?_cons_zero,
          Option.some.injEq]
        rw [← hf, ← hr]
    | succ k2 =>
      simp only [List.getElem?_cons_succ] at hf hr ⊢
      simp only [stageRows, List.getElem?_cons_succ] at hr ⊢
      exact ih (stageOneFeature stagingNames meta f m0) k2 f2 r hf hr

/-- C9: the staging feature object is created once per chart and reused for
every source feature (convertS57.py line 485 and loop 507-612), so when a
field was set to a value while staging feature k and is not touched while
staging feature k+1 (for instance because the source feature does not carry
it and it is not an enrichment field), the row written for feature k+1
still carries the value from feature k instead of null. -/
theorem reused_feature_carryover (stagingNames : List String)
    (meta : List (String × String)) (m0 : MemFeat)
    (feats : List (List (String × Option String))) (k : Nat)
    (f2 : List (String × Option String)) (r : MemFeat) (fn : String) (v : String)
    (hf : feats[k + 1]? = some f2)
    (hr : (stageRows stagingNames meta m0 feats)[k]? = some r)
    (hv : r fn = some v)
    (hsrc : fn ∉ f2.map Prod.fst)
    (hmeta : fn ∉ meta.map Prod.fst) :
    ((stageRows stagingNames meta m0 feats)[k + 1]?).map (fun g => g fn) =
      some (some v) := by
  rw [stageRows_succ stagingNames meta feats m0 k f2 r hf hr]
  rw [Option.map_some']
  rw [stageOneFeature_not_mem stagingNames meta f2 fn hsrc hmeta r, hv]

/-- C9 witness: with staging field SORIND and enrichment field ENCSource,
the first source feature sets SORIND, the second source feature carries no
fields, and the second written row still holds the first value of SORIND. -/
theorem reused_feature_carryover_witness :
    ((stageRows ["SORIND"] [("ENCSource", "AU412")] (fun _ => none)
        [[("SORIND", some "AU,graph")], []])[1]?).map (fun g => g "SORIND") =
      some (some "AU,graph") :=
  reused_feature_carryover ["SORIND"] [("ENCSource", "AU412")] (fun _ => none)
    [[("SORIND", some "AU,graph")], []] 0 []
    (stageOneFeature ["SORIND"] [("ENCSource", "AU412")] [("SORIND", some "AU,graph")]
      (fun _ => none))
    "SORIND" "AU,graph" rfl rfl rfl (by decide) (by decide)

/-- A source feature of a chart layer: the name GetGeometryName reports for
its geometry (none models a feature whose geometry is None, on which
`feature.geometry().GetGeometryName()` raises AttributeError), and its
attribute values. -/
structure Feat where
  geom : Option String
  attrs : List (String × Option String)
deriving DecidableEq

/-- One input chart for one (feature type, geometry type) combination: its
path, whether its DSID layer exists, and the layer named after the requested
feature type (none when the chart lacks that layer). -/
structure Chart where
  path : String
  dsid : Bool
  layer : Option (List Feat)
deriving DecidableEq

/-- The counting loop of convertS57.py lines 319-344: features whose
geometry name equals the requested geometry type are counted into
importFeatureCount; a None geometry raises inside the try and is skipped. -/
def importFeatureCount (ft : String) (feats : List Feat) : Nat :=
  feats.foldl (fun n f =>
    match f.geom with
    | none => n
    | some g => if g = ft then n + 1 else n) 0

/-- The staging loop of convertS57.py lines 507-612, at feature granularity:
a feature of a different geometry name is skipped (line 510), a feature with
a None geometry raises an uncaught AttributeError (line 510 runs outside any
try/except), and matching features are transferred in order.  The per-chart
shapefile is only written after the loop finishes, so an error produces no
output at all. -/
def stageLoop (ft : String) : List Feat → Except String (List Feat)
  | [] => .ok []
  | f :: rest =>
    match f.geom with
    | none => .error "AttributeError: NoneType geometry"
    | some g =>
      if g = ft then (stageLoop ft rest).map (fun l => f :: l)
      else stageLoop ft rest

/-- The outcome of processing one chart: whether the chart path was appended
to chartsWithFeatureList (line 311), whether it was appended to
chartsNoFeatureList (line 350), and the features of the per-chart shapefile
when one was written. -/
structure ChartOutcome where
  withFeature : Bool
  noFeature : Bool
  output : Option (List Feat)

/-- Processing of one chart inside the chart loop (convertS57.py lines
298-690): a chart with no layer of the requested name goes only to
chartsNoFeatureList; a chart whose layer exists is appended to
chartsWithFeatureList at line 311 even when it holds zero features of the
requested geometry, in which case line 349 also appends it to
chartsNoFeatureList; otherwise getENCMetadata runs (raising when the DSID
layer is missing, see `getENCMetadata`) and the staged features become the
per-chart shapefile. -/
def processChart (ft : String) (c : Chart) : Except String ChartOutcome :=
  match c.layer with
  | none => .ok ⟨false, true, none⟩
  | some feats =>
    if importFeatureCount ft feats = 0 then .ok ⟨true, true, none⟩
    else if c.dsid = false then .error "TypeError: NoneType object is not iterable"
    else (stageLoop ft feats).map (fun staged => ⟨true, false, some staged⟩)

/-- The summary block of convertS57.py lines 753-765: total charts found
(with + without), charts containing the feature, charts without it, and the
number of failed charts (failS57SourceList, which the dead guard at line 481
keeps empty). -/
structure Summary where
  chartsFound : Nat
  withFeature : Nat
  withoutFeature : Nat
  failed : Nat

/-- The observable result of one (feature type, geometry type) combination:
the two report counters, the per-chart shapefiles (chartShapefileList, each
given by its feature list), whether the combination folder was deleted by
shutil.rmtree (line 701), the composite shapefile (the EPSG code of its
declared CRS together with its features, lines 704-747) and the summary
(lines 753-765), when those were produced. -/
structure ComboResult where
  withFeature : Nat
  withoutFeature : Nat
  perChartOutputs : List (List Feat)
  folderRemoved : Bool
  composite : Option (Nat × List Feat)
  summary : Option Summary

/-- The chart loop of convertS57.py lines 298-690, accumulating the counts
and the per-chart shapefiles in order; an uncaught exception in one chart
kills the whole script. -/
def chartLoop (ft : String) :
    List Chart → Nat × Nat × List (List Feat) → Except String (Nat × Nat × List (List Feat))
  | [], st => .ok st
  | c :: rest, (w, n, outs) =>
    match processChart ft c with
    | .error e => .error e
    | .ok o =>
      chartLoop ft rest
        (w + (if o.withFeature then 1 else 0),
         n + (if o.noFeature then 1 else 0),
         outs ++ (match o.output with | some fs => [fs] | none => []))

/-- One (feature type, geometry type) combination, convertS57.py lines
255-765: run the chart loop, sys.exit when no charts were found at all
(lines 697-698), delete the combination folder and `continue` - skipping
the summary block - when no chart produced a shapefile (lines 699-702),
otherwise create the composite with its CRS declared as EPSG:4326 (lines
704-717), append every feature of every per-chart shapefile in order (lines
732-747), and print and log the summary (lines 753-765). -/
def runCombo (ft : String) (charts : List Chart) : Except String ComboResult :=
  match chartLoop ft charts (0, 0, []) with
  | .error e => .error e
  | .ok (w, n, outs) =>
    if charts = [] then .error "sys.exit: No ENC files were found"
    else if outs = [] then .ok ⟨w, n, outs, true, none, none⟩
    else .ok ⟨w, n, outs, false, some (4326, outs.flatten), some ⟨w + n, w, n, 0⟩⟩

theorem stageLoop_mem (ft : String) :
    ∀ feats staged : List Feat, stageLoop ft feats = .ok staged →
      ∀ f ∈ staged, f.geom = some ft := by
  intro feats
  induction feats with
  | nil =>
    intro staged h f hf
    simp only [stageLoop] at h
    injection h with h2
    rw [← h2] at hf
    cases hf
  | cons g rest ih =>
    intro staged h f hf
    rw [stageLoop] at h
    cases hg : g.geom with
    | none =>
      simp only [hg] at h
      cases h
    | some gm =>
      simp only [hg] at h
      by_cases hgm : gm = ft
      · rw [if_pos hgm] at h
        cases hrest : stageLoop ft rest with
        | error e =>
          rw [hrest] at h
          simp only [Except.map] at h
          cases h
        | ok l =>
          rw [hrest] at h
          simp only [Except.map] at h
          injection h with h2
          rw [← h2] at hf
          rcases List.mem_cons.mp hf with h1 | h1
          · rw [h1, hg, hgm]
          · exact ih l hrest f h1
      · rw [if_neg hgm] at h
        exact ih staged h f hf

theorem processChart_output_geom (ft : String) (c : Chart) (o : ChartOutcome)
    (h : processChart ft c = .ok o) (fs : List Feat) (ho : o.output = some fs) :
    ∀ f ∈ fs, f.geom = some ft := by
  unfold processChart at h
  cases hl : c.layer with
  | none =>
    simp only [hl] at h
    injection h with h2
    rw [← h2] at ho
    cases ho
  | some feats =>
    simp only [hl] at h
    by_cases hcnt : importFeatureCount ft feats = 0
    · rw [if_pos hcnt] at h
      injection h with h2
      rw [← h2] at ho
      cases ho
    · rw [if_neg hcnt] at h
      by_cases hd : c.dsid = false
      · rw [if_pos hd] at h
        cases h
      · rw [if_neg hd] at h
        cases hs : stageLoop ft feats with
        | error e =>
          rw [hs] at h
          simp only [Except.map] at h
          cases h
        | ok staged =>
          rw [hs] at h
          simp only [Except.map] at h
          injection h with h2
          rw [← h2] at ho
          have hfs : staged = fs := Option.some.inj ho
          rw [← hfs]
          exact stageLoop_mem ft feats staged hs

theorem chartLoop_outputs (ft : String) (P : List Feat → Prop)
    (hP : ∀ c o, processChart ft c = .ok o → ∀ fs, o.output = some fs → P fs) :
    ∀ (charts : List Chart) (st res : Nat × Nat × List (List Feat)),
      chartLoop ft charts st = .ok res →
      (∀ out ∈ st.2.2, P out) → ∀ out ∈ res.2.2, P out := by
  intro charts
  induction charts with
  | nil =>
    intro st res h hst
    simp only [chartLoop] at h
    injection h with h2
    rw [← h2]
    exact hst
  | cons c rest ih =>
    intro st res h hst
    obtain ⟨w, n, outs⟩ := st
    rw [chartLoop] at h
    cases hpc : processChart ft c with
    | error e =>
      simp only [hpc] at h
      cases h
    | ok o =>
      simp only [hpc] at h
      apply ih _ res h
      intro out hout
      rcases List.mem_append.mp hout with h1 | h2
      · exact hst out h1
      · cases hoo : o.output with
        | none =>
          rw [hoo] at h2
          cases h2
        | some fs =>
          rw [hoo] at h2
          have : out = fs := by simpa using h2
          rw [this]
          exact hP c o hpc fs hoo

/-- C3: in a successful combination run, every feature of every per-chart
shapefile and every feature of the composite shapefile has exactly the
requested geometry name; a source feature whose geometry name differs from
the requested type is never written to either output. -/
theorem geometry_filter_outputs (ft : String) (charts : List Chart)
    (res : ComboResult) (h : runCombo ft charts = .ok res) :
    (∀ out ∈ res.perChartOutputs, ∀ f ∈ out, f.geom = some ft) ∧
    (∀ p, res.composite = some p → ∀ f ∈ p.2, f.geom = some ft) := by
  unfold runCombo at h
  cases hloop : chartLoop ft charts (0, 0, []) with
  | error e =>
    simp only [hloop] at h
    cases h
  | ok st =>
    simp only [hloop] at h
    obtain ⟨w, n, outs⟩ := st
    have houts : ∀ out ∈ outs, ∀ f ∈ out, f.geom = some ft := by
      refine chartLoop_outputs ft (fun out => ∀ f ∈ out, f.geom = some ft)
        (processChart_output_geom ft) charts (0, 0, []) (w, n, outs) hloop ?_
      intro out hout
      cases hout
    by_cases hempty : charts = []
    · rw [if_pos hempty] at h
      cases h
    · rw [if_neg hempty] at h
      by_cases ho : outs = []
      · rw [if_pos ho] at h
        injection h with h2
        rw [← h2]
        refine ⟨fun out hout f hf => houts out hout f hf, fun p hp => ?_⟩
        cases hp
      · rw [if_neg ho] at h
        injection h with h2
        rw [← h2]
        refine ⟨fun out hout f hf => houts out hout f hf, fun p hp => ?_⟩
        have hpp : (4326, outs.flatten) = p := Option.some.inj hp
        rw [← hpp]
        intro f hf
        rcases List.mem_flatten.mp hf with ⟨l, hl, hfl⟩
        exact houts l hl f hfl

/-- C5: in a successful combination run, if no chart yielded a per-chart
shapefile the combination folder is removed and no composite is created,
and otherwise exactly one composite is created, its CRS declared EPSG:4326,
holding every feature of every per-chart shapefile in order. -/
theorem composite_assembly_or_discard (ft : String) (charts : List Chart)
    (res : ComboResult) (h : runCombo ft charts = .ok res) :
    (res.perChartOutputs = [] → res.folderRemoved = true ∧ res.composite = none) ∧
    (res.perChartOutputs ≠ [] → res.folderRemoved = false ∧
      res.composite = some (4326, res.perChartOutputs.flatten)) := by
  unfold runCombo at h
  cases hloop : chartLoop ft charts (0, 0, []) with
  | error e =>
    simp only [hloop] at h
    cases h
  | ok st =>
    simp only [hloop] at h
    obtain ⟨w, n, outs⟩ := st
    by_cases hempty : charts = []
    · rw [if_pos hempty] at h
      cases h
    · rw [if_neg hempty] at h
      by_cases ho : outs = []
      · rw [if_pos ho] at h
        injection h with h2
        rw [← h2]
        exact ⟨fun _ => ⟨rfl, rfl⟩, fun hne => absurd ho hne⟩
      · rw [if_neg ho] at h
        injection h with h2
        rw [← h2]
        exact ⟨fun he => absurd he ho, fun _ => ⟨rfl, rfl⟩⟩

/-- C6 counterexample input: a single chart lacking the requested layer. -/
def noLayerChart : Chart := ⟨"chartC", true, none⟩

/-- C6 counterexample: a combination in which no chart yields output reaches
the `continue` of convertS57.py line 702, so the summary block of lines
753-765 is skipped - the run result records no summary, contradicting the
claim that the final summary is always printed and logged. -/
theorem summary_skipped_on_empty :
    runCombo "POINT" [noLayerChart] = .ok ⟨0, 1, [], true, none, none⟩ := rfl

/-- C6 amended: the final summary is printed and logged exactly when the
combination yielded at least one per-chart shapefile; a combination with
zero output skips the summary via the `continue` of line 702, and when the
summary is emitted it reports with + without charts found, the with-feature
count, the without-feature count and zero failed charts. -/
theorem summary_iff_output (ft : String) (charts : List Chart)
    (res : ComboResult) (h : runCombo ft charts = .ok res) :
    (res.perChartOutputs = [] → res.summary = none) ∧
    (res.perChartOutputs ≠ [] → res.summary =
      some ⟨res.withFeature + res.withoutFeature, res.withFeature, res.withoutFeature, 0⟩) := by
  unfold runCombo at h
  cases hloop : chartLoop ft charts (0, 0, []) with
  | error e =>
    simp only [hloop] at h
    cases h
  | ok st =>
    simp only [hloop] at h
    obtain ⟨w, n, outs⟩ := st
    by_cases hempty : charts = []
    · rw [if_pos hempty] at h
      cases h
    · rw [if_neg hempty] at h
      by_cases ho : outs = []
      · rw [if_pos ho] at h
        injection h with h2
        rw [← h2]
        exact ⟨fun _ => rfl, fun hne => absurd ho hne⟩
      · rw [if_neg ho] at h
        injection h with h2
        rw [← h2]
        exact ⟨fun he => absurd he ho, fun _ => rfl⟩

/-- The two POINT features of synthetic chart A. -/
def pointFeatA1 : Feat := ⟨some "POINT", [("OBJNAM", some "buoy 1")]⟩

/-- The second POINT feature of synthetic chart A. -/
def pointFeatA2 : Feat := ⟨some "POINT", [("OBJNAM", some "buoy 2")]⟩

/-- Synthetic chart A: two features of the requested POINT geometry. -/
def chartA : Chart := ⟨"chartA", true, some [pointFeatA1, pointFeatA2]⟩

/-- Synthetic chart B: the layer exists but holds no POINT feature. -/
def chartB : Chart := ⟨"chartB", true, some [⟨some "LINESTRING", []⟩]⟩

/-- C7 evaluation on the three-chart scenario: exactly one per-chart
shapefile (chart A, 2 features) and a composite with exactly those 2
features are produced as the claim expects, but the summary reports
withFeature = 2 and chartsFound = 4: line 311 appends chart B to
chartsWithFeatureList as soon as the layer exists, before the geometry
count, and line 350 appends the same chart to chartsNoFeatureList, so B is
counted on both sides - the claim (and the spec) expect withFeature = 1. -/
theorem three_chart_scenario_eval :
    runCombo "POINT" [chartA, chartB, noLayerChart] =
      .ok ⟨2, 2, [[pointFeatA1, pointFeatA2]], false,
        some (4326, [pointFeatA1, pointFeatA2]), some ⟨4, 2, 2, 0⟩⟩ := rfl

/-- The combination result of running the single chart A, used by the
pipeline witnesses. -/
def comboA : ComboResult :=
  ⟨1, 0, [[pointFeatA1, pointFeatA2]], false,
    some (4326, [pointFeatA1, pointFeatA2]), some ⟨1, 1, 0, 0⟩⟩

/-- C3 witness: the geometry-filter theorem applied to the concrete
one-chart run. -/
theorem geometry_filter_outputs_witness :
    (∀ out ∈ comboA.perChartOutputs, ∀ f ∈ out, f.geom = some "POINT") ∧
    (∀ p, comboA.composite = some p → ∀ f ∈ p.2, f.geom = some "POINT") :=
  geometry_filter_outputs "POINT" [chartA] comboA rfl

/-- C5 witness: the composite-assembly theorem applied to the concrete
one-chart run. -/
theorem composite_assembly_or_discard_witness :
    (comboA.perChartOutputs = [] → comboA.folderRemoved = true ∧ comboA.composite = none) ∧
    (comboA.perChartOutputs ≠ [] → comboA.folderRemoved = false ∧
      comboA.composite = some (4326, comboA.perChartOutputs.flatten)) :=
  composite_assembly_or_discard "POINT" [chartA] comboA rfl

/-- C6 amended, witness: the summary theorem applied to the concrete
one-chart run. -/
theorem summary_iff_output_witness :
    (comboA.perChartOutputs = [] → comboA.summary = none) ∧
    (comboA.perChartOutputs ≠ [] → comboA.summary =
      some ⟨comboA.withFeature + comboA.withoutFeature, comboA.withFeature,
        comboA.withoutFeature, 0⟩) :=
  summary_iff_output "POINT" [chartA] comboA rfl

end Georegulation
